import Mathlib

/- Verification of the reminder and appointment scheduling subsystem of the
AminuUs insurance CRM backend.  TypeScript services are embedded shallowly:
JavaScript strings are lists of characters, database rows are structures,
stored-procedure row sets are explicit lists, and the JavaScript Date
constructor (whose parsing is engine defined) is abstracted as an oracle. -/

/- JavaScript strings, modelled as lists of characters. -/
abbrev Str := List Char

/- Whitespace as recognised by String.prototype.trim and parseInt. -/
def isWhitespaceCh (c : Char) : Bool :=
  c == ' ' || c == '\t' || c == '\n' || c == '\r'

/- String.prototype.trim: drop leading and trailing whitespace. -/
def jsTrim (cs : Str) : Str :=
  ((cs.dropWhile isWhitespaceCh).reverse.dropWhile isWhitespaceCh).reverse

def isDigitCh (c : Char) : Bool := '0' ≤ c && c ≤ '9'

def digitVal (c : Char) : Nat := c.toNat - 48

/- Number(s) on a string of decimal digits. -/
def digitsToNat (cs : Str) : Nat :=
  cs.foldl (fun acc c => acc * 10 + digitVal c) 0

/- String.prototype.split applied with separator ":". -/
def splitColon : Str → List Str
  | [] => [[]]
  | c :: rest =>
      let r := splitColon rest
      if c == ':' then [] :: r
      else
        match r with
        | s :: tail => (c :: s) :: tail
        | [] => [[c]]

/- Number.prototype.toString on a natural number. -/
def natToStr (n : Nat) : Str := Nat.toDigits 10 n

/- String.prototype.padStart with target length 2 and pad character "0". -/
def padStart2 (cs : Str) : Str := List.replicate (2 - cs.length) '0' ++ cs

/- The regex test of Format 1 in validateAndFormatPostgreSQLTime:
already two digits, colon, two digits, colon, two digits. -/
def matchHHMMSS : Str → Bool
  | [h1, h2, c1, m1, m2, c2, s1, s2] =>
      isDigitCh h1 && isDigitCh h2 && c1 == ':' &&
      isDigitCh m1 && isDigitCh m2 && c2 == ':' &&
      isDigitCh s1 && isDigitCh s2
  | _ => false

/- The regex test of Format 2: one or two digits, colon, two digits. -/
def matchHMM : Str → Bool
  | [h1, c1, m1, m2] =>
      isDigitCh h1 && c1 == ':' && isDigitCh m1 && isDigitCh m2
  | [h1, h2, c1, m1, m2] =>
      isDigitCh h1 && isDigitCh h2 && c1 == ':' && isDigitCh m1 && isDigitCh m2
  | _ => false

/- The JavaScript Date constructor used by Formats 3 and 4 of the time
validator.  Its parsing rules are engine defined, so it is abstracted as an
oracle: some (h, m, s) gives the UTC hour, minute and second of a valid
parse, none models an invalid Date (getTime() is NaN). -/
def JsDateOracle := Str → Option (Nat × Nat × Nat)

/- Template string of Formats 3 and 4: pad hours, minutes and seconds. -/
def formatHMS (h m s : Nat) : Str :=
  padStart2 (natToStr h) ++ ':' :: padStart2 (natToStr m) ++ ':' :: padStart2 (natToStr s)

/- Body of validateAndFormatPostgreSQLTime on an actual string input.
A thrown range error is caught by the enclosing try/catch, which returns
null, so the out-of-range branches produce none directly. -/
def validateTimeString (jsDate : JsDateOracle) (ts : Str) : Option Str :=
  if ts == [] || ts == "null".data || ts == "undefined".data then none
  else
    let cleanTime := jsTrim ts
    if matchHHMMSS cleanTime then
      match (splitColon cleanTime).map digitsToNat with
      | [h, m, s] => if h ≤ 23 && m ≤ 59 && s ≤ 59 then some cleanTime else none
      | _ => none
    else if matchHMM cleanTime then
      match (splitColon cleanTime).map digitsToNat with
      | [h, m] =>
          if h ≤ 23 && m ≤ 59 then
            some (padStart2 (natToStr h) ++ ':' :: padStart2 (natToStr m) ++ [':', '0', '0'])
          else none
      | _ => none
    else
      let viaIso : Option Str :=
        if cleanTime.contains 'T' || cleanTime.contains '-' then
          match jsDate cleanTime with
          | some (h, m, s) => some (formatHMS h m s)
          | none => none
        else none
      match viaIso with
      | some r => some r
      | none =>
        match jsDate ("1970-01-01T".data ++ cleanTime) with
        | some (h, m, s) => some (formatHMS h m s)
        | none => none

/- ReminderService.validateAndFormatPostgreSQLTime.  The input
string | null | undefined is an Option Str: none models null/undefined. -/
def validateAndFormatPostgreSQLTime (jsDate : JsDateOracle) (timeString : Option Str) :
    Option Str :=
  match timeString with
  | none => none
  | some ts => validateTimeString jsDate ts

/- A string that already is a valid HH:MM:SS value: Format 1 shape with
hours 0-23, minutes 0-59 and seconds 0-59. -/
def validHMS (cs : Str) : Bool :=
  matchHHMMSS cs &&
    (match (splitColon cs).map digitsToNat with
     | [h, m, s] => h ≤ 23 && m ≤ 59 && s ≤ 59
     | _ => false)

/- A string that is a valid H:MM or HH:MM value. -/
def validHM (cs : Str) : Bool :=
  matchHMM cs &&
    (match (splitColon cs).map digitsToNat with
     | [h, m] => h ≤ 23 && m ≤ 59
     | _ => false)

/- The HH:MM:00 output Format 2 builds for a valid H:MM or HH:MM input. -/
def padOutputHM (cs : Str) : Str :=
  match (splitColon cs).map digitsToNat with
  | [h, m] => padStart2 (natToStr h) ++ ':' :: padStart2 (natToStr m) ++ [':', '0', '0']
  | _ => []

/- All four parse attempts fail on the cleaned input: neither regex matches,
Format 3 either is not attempted or yields an invalid Date, and Format 4
yields an invalid Date. -/
def failsAllFourAttempts (jsDate : JsDateOracle) (cs : Str) : Prop :=
  matchHHMMSS (jsTrim cs) = false ∧
  matchHMM (jsTrim cs) = false ∧
  (((jsTrim cs).contains 'T' = false ∧ (jsTrim cs).contains '-' = false) ∨
    jsDate (jsTrim cs) = none) ∧
  jsDate ("1970-01-01T".data ++ jsTrim cs) = none

lemma not_whitespace_of_digit (c : Char) (h : isDigitCh c = true) :
    isWhitespaceCh c = false := by
  simp only [isDigitCh, Bool.and_eq_true, decide_eq_true_eq] at h
  simp only [isWhitespaceCh, Bool.or_eq_false_iff, beq_eq_false_iff_ne, ne_eq]
  refine ⟨⟨⟨?_, ?_⟩, ?_⟩, ?_⟩ <;> rintro rfl <;> revert h <;> decide

lemma jsTrim_eq_self_of_ends_digit (a b : Char) (mid : Str)
    (ha : isDigitCh a = true) (hb : isDigitCh b = true) :
    jsTrim (a :: (mid ++ [b])) = a :: (mid ++ [b]) := by
  unfold jsTrim
  rw [List.dropWhile_cons_of_neg (by simp [not_whitespace_of_digit a ha])]
  rw [show (a :: (mid ++ [b])).reverse = b :: (mid.reverse ++ [a]) by simp]
  rw [List.dropWhile_cons_of_neg (by simp [not_whitespace_of_digit b hb])]
  simp

lemma digit_beq_colon_eq_false (c : Char) (h : isDigitCh c = true) : (c == ':') = false := by
  cases hc : c == ':'
  · rfl
  · exact absurd h (by rw [eq_of_beq hc]; decide)

lemma validate_validHMS (jsDate : JsDateOracle) (cs : Str) (h : validHMS cs = true) :
    validateAndFormatPostgreSQLTime jsDate (some cs) = some cs := by
  unfold validHMS at h
  rw [Bool.and_eq_true] at h
  obtain ⟨hm, hr⟩ := h
  rcases cs with _ | ⟨a, _ | ⟨b, _ | ⟨x, _ | ⟨c, _ | ⟨d, _ | ⟨y, _ | ⟨e, _ | ⟨f, _ | ⟨g, t⟩⟩⟩⟩⟩⟩⟩⟩⟩
  all_goals try (refine absurd hm ?_; simp [matchHHMMSS]; done)
  rw [show matchHHMMSS [a, b, x, c, d, y, e, f] =
    (isDigitCh a && isDigitCh b && (x == ':') && isDigitCh c && isDigitCh d && (y == ':') &&
     isDigitCh e && isDigitCh f) from rfl] at hm
  simp only [Bool.and_eq_true, beq_iff_eq] at hm
  obtain ⟨⟨⟨⟨⟨⟨⟨ha, hb⟩, hx⟩, hc⟩, hd⟩, hy⟩, he⟩, hf⟩ := hm
  subst hx; subst hy
  have htrim : jsTrim [a, b, ':', c, d, ':', e, f] = [a, b, ':', c, d, ':', e, f] :=
    jsTrim_eq_self_of_ends_digit a f [b, ':', c, d, ':', e] ha hf
  simp [splitColon, digit_beq_colon_eq_false a ha, digit_beq_colon_eq_false b hb,
    digit_beq_colon_eq_false c hc, digit_beq_colon_eq_false d hd,
    digit_beq_colon_eq_false e he, digit_beq_colon_eq_false f hf] at hr
  show validateTimeString jsDate [a, b, ':', c, d, ':', e, f] = _
  simp only [validateTimeString, htrim]
  simp [splitColon, matchHHMMSS, digit_beq_colon_eq_false a ha, digit_beq_colon_eq_false b hb,
    digit_beq_colon_eq_false c hc, digit_beq_colon_eq_false d hd,
    digit_beq_colon_eq_false e he, digit_beq_colon_eq_false f hf,
    ha, hb, hc, hd, he, hf, hr]

lemma validate_validHM (jsDate : JsDateOracle) (cs : Str) (h : validHM cs = true) :
    validateAndFormatPostgreSQLTime jsDate (some cs) = some (padOutputHM cs) := by
  unfold validHM at h
  rw [Bool.and_eq_true] at h
  obtain ⟨hm, hr⟩ := h
  rcases cs with _ | ⟨a, _ | ⟨b, _ | ⟨c, _ | ⟨d, _ | ⟨e, _ | ⟨g, t⟩⟩⟩⟩⟩⟩
  all_goals try (refine absurd hm ?_; simp [matchHMM]; done)
  · -- the H:MM shape: one hour digit
    rw [show matchHMM [a, b, c, d] =
      (isDigitCh a && (b == ':') && isDigitCh c && isDigitCh d) from rfl] at hm
    simp only [Bool.and_eq_true, beq_iff_eq] at hm
    obtain ⟨⟨⟨ha, hb⟩, hc⟩, hd⟩ := hm
    subst hb
    have htrim : jsTrim [a, ':', c, d] = [a, ':', c, d] :=
      jsTrim_eq_self_of_ends_digit a d [':', c] ha hd
    simp [padOutputHM, splitColon, digit_beq_colon_eq_false a ha,
      digit_beq_colon_eq_false c hc, digit_beq_colon_eq_false d hd] at hr ⊢
    show validateTimeString jsDate [a, ':', c, d] = _
    simp only [validateTimeString, htrim]
    simp [splitColon, matchHHMMSS, matchHMM, digit_beq_colon_eq_false a ha,
      digit_beq_colon_eq_false c hc, digit_beq_colon_eq_false d hd, ha, hc, hd, hr]
  · -- the HH:MM shape: two hour digits
    rw [show matchHMM [a, b, c, d, e] =
      (isDigitCh a && isDigitCh b && (c == ':') && isDigitCh d && isDigitCh e) from rfl] at hm
    simp only [Bool.and_eq_true, beq_iff_eq] at hm
    obtain ⟨⟨⟨⟨ha, hb⟩, hc⟩, hd⟩, he⟩ := hm
    subst hc
    have htrim : jsTrim [a, b, ':', d, e] = [a, b, ':', d, e] :=
      jsTrim_eq_self_of_ends_digit a e [b, ':', d] ha he
    simp [padOutputHM, splitColon, digit_beq_colon_eq_false a ha,
      digit_beq_colon_eq_false b hb, digit_beq_colon_eq_false d hd,
      digit_beq_colon_eq_false e he] at hr ⊢
    show validateTimeString jsDate [a, b, ':', d, e] = _
    simp only [validateTimeString, htrim]
    simp [splitColon, matchHHMMSS, matchHMM, digit_beq_colon_eq_false a ha,
      digit_beq_colon_eq_false b hb, digit_beq_colon_eq_false d hd,
      digit_beq_colon_eq_false e he, ha, hb, hd, he, hr]

lemma validate_failsAll (jsDate : JsDateOracle) (cs : Str)
    (h : failsAllFourAttempts jsDate cs) :
    validateAndFormatPostgreSQLTime jsDate (some cs) = none := by
  obtain ⟨h1, h2, h3, h4⟩ := h
  have h4' :
      jsDate ('1' :: '9' :: '7' :: '0' :: '-' :: '0' :: '1' :: '-' :: '0' :: '1' :: 'T' :: jsTrim cs) =
        none := h4
  show validateTimeString jsDate cs = none
  unfold validateTimeString
  by_cases h0 : (cs == [] || cs == "null".data || cs == "undefined".data) = true
  · rw [if_pos h0]
  · rw [if_neg h0]
    simp only [h1, h2]
    rcases h3 with ⟨hT, hD⟩ | hn
    · have hT' : ¬ ('T' ∈ jsTrim cs) := by simpa using hT
      have hD' : ¬ ('-' ∈ jsTrim cs) := by simpa using hD
      simp [hT', hD', h4']
    · simp [hn, h4']

/-- C3: the time normalizer is total and never throws: for every Date-parsing
oracle and every input, null and the literal strings "null" and "undefined"
resolve to null; a valid HH:MM:SS value is returned unchanged; a valid H:MM
or HH:MM value is returned zero-padded with seconds defaulted to 00;
out-of-range values such as 25:00 and 12:61 resolve to null; and any input on
which all four parse attempts fail resolves to null rather than raising. -/
theorem C3_time_normalizer_total_and_correct :
    ∀ jsDate : JsDateOracle,
      validateAndFormatPostgreSQLTime jsDate none = none ∧
      validateAndFormatPostgreSQLTime jsDate (some "null".data) = none ∧
      validateAndFormatPostgreSQLTime jsDate (some "undefined".data) = none ∧
      (∀ cs, validHMS cs = true →
        validateAndFormatPostgreSQLTime jsDate (some cs) = some cs) ∧
      (∀ cs, validHM cs = true →
        validateAndFormatPostgreSQLTime jsDate (some cs) = some (padOutputHM cs)) ∧
      validateAndFormatPostgreSQLTime jsDate (some "25:00".data) = none ∧
      validateAndFormatPostgreSQLTime jsDate (some "12:61".data) = none ∧
      (∀ cs, failsAllFourAttempts jsDate cs →
        validateAndFormatPostgreSQLTime jsDate (some cs) = none) :=
  fun jsDate =>
    ⟨rfl, rfl, rfl, validate_validHMS jsDate, validate_validHM jsDate, rfl, rfl,
      validate_failsAll jsDate⟩

/-- Witness for C3 at concrete inputs: the identity case on 09:30:00, the
padding case on 9:30, and the catch-all case on an unparseable string under
the oracle that rejects every Date constructor call. -/
theorem C3_time_normalizer_witness :
    validateAndFormatPostgreSQLTime (fun _ => none) (some "09:30:00".data) =
        some "09:30:00".data ∧
    validateAndFormatPostgreSQLTime (fun _ => none) (some "9:30".data) =
        some (padOutputHM "9:30".data) ∧
    validateAndFormatPostgreSQLTime (fun _ => none) (some "garbage".data) = none :=
  ⟨(C3_time_normalizer_total_and_correct (fun _ => none)).2.2.2.1 "09:30:00".data (by decide),
   (C3_time_normalizer_total_and_correct (fun _ => none)).2.2.2.2.1 "9:30".data (by decide),
   (C3_time_normalizer_total_and_correct (fun _ => none)).2.2.2.2.2.2.2 "garbage".data
     ⟨rfl, rfl, Or.inl ⟨rfl, rfl⟩, rfl⟩⟩

/- Truthiness of an optional string under JavaScript: undefined and the
empty string are falsy. -/
def jsTruthyStr : Option Str → Bool
  | none => false
  | some s => !(s.isEmpty)

/- JavaScript x || d on an optional number, where 0 is falsy: used for the
PageSize || 20 and PageNumber || 1 defaults in getAllReminders. -/
def jsOrNat (o : Option Nat) (dflt : Nat) : Nat :=
  match o with
  | none => dflt
  | some n => if n = 0 then dflt else n

/- The ReminderFilters interface of src/interfaces/reminders.ts. -/
structure ReminderFilters where
  ReminderType : Option Str
  Status : Option Str
  Priority : Option Str
  StartDate : Option Str
  EndDate : Option Str
  ClientId : Option Str
  PageNumber : Option Nat
  PageSize : Option Nat

/- The hasFilters test of ReminderService.getAllReminders: true when any of
ReminderType, Status, Priority or ClientId is truthy. -/
def hasFilters (f : ReminderFilters) : Bool :=
  jsTruthyStr f.ReminderType || jsTruthyStr f.Status ||
    jsTruthyStr f.Priority || jsTruthyStr f.ClientId

/- The two retrieval modes of getAllReminders: the filtered stored
procedure sp_get_all_reminders_with_filters versus the simple
sp_get_all_reminders. -/
inductive RetrievalPath
  | filtered
  | unfiltered
deriving DecidableEq, Repr

def selectPath (f : ReminderFilters) : RetrievalPath :=
  if hasFilters f then .filtered else .unfiltered

/- A calendar date as PostgreSQL stores it. -/
structure SqlDate where
  year : Int
  month : Nat
  day : Nat
deriving DecidableEq, Repr

/- The leap-year test written inline in the birthday count SQL of
getAllReminders: year divisible by 400, or by 4 but not by 100. -/
def isLeapYear (y : Int) : Bool :=
  y % 400 = 0 || (y % 4 = 0 && y % 100 ≠ 0)

/- Day number of a civil date (days since 1970-01-01, Gregorian calendar),
used to give BETWEEN on dates and + INTERVAL on days their standard
meaning. -/
def daysFromCivil (dt : SqlDate) : Int :=
  let y : Int := if dt.month ≤ 2 then dt.year - 1 else dt.year
  let era : Int := (if 0 ≤ y then y else y - 399) / 400
  let yoe : Int := y - era * 400
  let mp : Int := ((dt.month + 9) % 12 : Nat)
  let doy : Int := (153 * mp + 2) / 5 + dt.day - 1
  let doe : Int := yoe * 365 + yoe / 4 - yoe / 100 + doy
  era * 146097 + doe - 719468

/- d BETWEEN lo AND lo + INTERVAL (n days). -/
def dateBetween (d lo : SqlDate) (n : Nat) : Bool :=
  daysFromCivil lo ≤ daysFromCivil d && daysFromCivil d ≤ daysFromCivil lo + n

/- One row of the reminders table, restricted to the column the count
query of getAllReminders reads. -/
structure ReminderRow where
  agentId : Nat

/- One row of the clients table, restricted to the columns the count query
reads. -/
structure ClientRow where
  clientId : Nat
  agentId : Nat
  isActive : Bool
  dateOfBirth : Option SqlDate

/- One row of the client_policies table, restricted to the columns the
count query reads. -/
structure ClientPolicyRow where
  clientId : Nat
  isActive : Bool
  endDate : SqlDate

/- One row of the appointments table, restricted to the columns the count
query reads. -/
structure AppointmentRow where
  agentId : Nat
  isActive : Bool

/- The tables the unfiltered count query of getAllReminders touches. -/
structure CrmDb where
  reminders : List ReminderRow
  clientPolicies : List ClientPolicyRow
  clients : List ClientRow
  appointments : List AppointmentRow

/- First branch of the count CTE: SELECT COUNT(*) FROM reminders WHERE
agent_id = $1. -/
def nativeReminderCount (db : CrmDb) (agentId : Nat) : Nat :=
  (db.reminders.filter (fun r => r.agentId == agentId)).length

/- Second branch: COUNT(*) FROM client_policies INNER JOIN clients ON
client_id, WHERE agent matches, policy active, end_date within the next 30
days. -/
def policyExpiryCount (db : CrmDb) (agentId : Nat) (today : SqlDate) : Nat :=
  ((db.clientPolicies.flatMap (fun cp =>
      (db.clients.filter (fun c => c.clientId == cp.clientId)).map (fun c => (cp, c)))).filter
    (fun p => p.2.agentId == agentId && p.1.isActive && dateBetween p.1.endDate today 30)).length

/- The CASE expression of the third branch: a Feb 29 date of birth falls
back to Feb 28 of the current year when that year is not a leap year,
otherwise the birthday is the same month and day in the current year. -/
def birthdayDate (today dob : SqlDate) : SqlDate :=
  if dob.month == 2 && dob.day == 29 && !(isLeapYear today.year) then
    ⟨today.year, 2, 28⟩
  else
    ⟨today.year, dob.month, dob.day⟩

/- Third branch: COUNT(*) FROM clients WHERE agent matches, client active,
date_of_birth not null, and the (leap-adjusted) birthday lies within the
next 7 days. -/
def birthdayCount (db : CrmDb) (agentId : Nat) (today : SqlDate) : Nat :=
  (db.clients.filter (fun c =>
    c.agentId == agentId && c.isActive &&
      (match c.dateOfBirth with
       | none => false
       | some dob => dateBetween (birthdayDate today dob) today 7))).length

/- Fourth branch: COUNT(*) FROM appointments WHERE agent matches and
is_active. -/
def activeAppointmentCount (db : CrmDb) (agentId : Nat) : Nat :=
  (db.appointments.filter (fun a => a.agentId == agentId && a.isActive)).length

/- The all_reminders_count CTE: the four counts stacked by UNION ALL. -/
def allRemindersCountRows (db : CrmDb) (agentId : Nat) (today : SqlDate) : List Nat :=
  [nativeReminderCount db agentId, policyExpiryCount db agentId today,
   birthdayCount db agentId today, activeAppointmentCount db agentId]

/- SELECT SUM(count) AS total FROM all_reminders_count. -/
def unfilteredTotalRecords (db : CrmDb) (agentId : Nat) (today : SqlDate) : Nat :=
  (allRemindersCountRows db agentId today).sum

/- One row returned by sp_get_all_reminders_with_filters, restricted to the
embedded total_records column that getAllReminders reads (parseInt(..)||0
folded into a Nat); the reminder payload itself is mapped one-to-one and
plays no role in path selection or pagination. -/
structure SpReminderRow where
  totalRecords : Nat
deriving Inhabited, Repr

/- The paginated response getAllReminders builds. -/
structure PaginatedReminderResponse where
  reminders : List SpReminderRow
  totalRecords : Nat
  currentPage : Nat
  totalPages : Nat
  pageSize : Nat
deriving Repr

/- ReminderService.getAllReminders: the stored procedures are the storage
boundary, so the rows they return are passed in as spRows; today is
CURRENT_DATE of the count query.  Math.ceil(totalRecords / pageSize) on
naturals with pageSize positive is (totalRecords + pageSize - 1) /
pageSize. -/
def getAllReminders (db : CrmDb) (agentId : Nat) (today : SqlDate)
    (f : ReminderFilters) (spRows : List SpReminderRow) : PaginatedReminderResponse :=
  let hf := hasFilters f
  let pageSize := jsOrNat f.PageSize 20
  let currentPage := jsOrNat f.PageNumber 1
  let totalRecords : Nat :=
    if hf && spRows.length > 0 then
      (spRows.headI).totalRecords
    else if !hf then
      unfilteredTotalRecords db agentId today
    else
      spRows.length
  { reminders := spRows
    totalRecords := totalRecords
    currentPage := currentPage
    totalPages := (totalRecords + pageSize - 1) / pageSize
    pageSize := pageSize }

lemma ceil_div_nat (a b : Nat) (hb : 0 < b) :
    (a + b - 1) / b = ⌈(a : ℚ) / (b : ℚ)⌉₊ := by
  rcases Nat.eq_zero_or_pos a with ha | ha
  · subst ha
    rw [Nat.div_eq_of_lt (by omega)]
    simp
  · obtain ⟨q, r, hr, hqr⟩ : ∃ q r, r < b ∧ b * q + r = a + b - 1 :=
      ⟨(a + b - 1) / b, (a + b - 1) % b, Nat.mod_lt _ hb, Nat.div_add_mod _ _⟩
    have hqeq : (a + b - 1) / b = q := by
      rw [← hqr, Nat.mul_add_div hb, Nat.div_eq_of_lt hr, Nat.add_zero]
    rw [hqeq]
    have h1 : a ≤ q * b := by
      have hbq : b * q = q * b := mul_comm b q
      omega
    have hq1 : 1 ≤ q := by
      rcases Nat.eq_zero_or_pos q with h0 | h
      · subst h0; omega
      · exact h
    have h2 : (q - 1) * b < a := by
      have hs : (q - 1) * b = q * b - b := by rw [Nat.sub_mul, one_mul]
      have hbq : b * q = q * b := mul_comm b q
      omega
    rw [eq_comm, Nat.ceil_eq_iff (by omega)]
    constructor
    · rw [lt_div_iff₀ (by exact_mod_cast hb)]
      exact_mod_cast h2
    · rw [div_le_iff₀ (by exact_mod_cast hb)]
      exact_mod_cast h1

lemma jsOrNat_pos (o : Option Nat) (d : Nat) (hd : 0 < d) : 0 < jsOrNat o d := by
  cases o with
  | none => simpa [jsOrNat]
  | some n =>
      by_cases h : n = 0
      · simp [jsOrNat, h, hd]
      · simp [jsOrNat, h]
        omega

/-- C4: getAllReminders selects the filtered retrieval path iff at least
one of ReminderType, Status, Priority or ClientId is supplied (truthy);
supplying only StartDate, EndDate, PageNumber and PageSize selects the
unfiltered path, and supplying Status alone selects the filtered path. -/
theorem C4_filter_path_selection :
    (∀ f : ReminderFilters,
      selectPath f = RetrievalPath.filtered ↔
        (jsTruthyStr f.ReminderType || jsTruthyStr f.Status ||
          jsTruthyStr f.Priority || jsTruthyStr f.ClientId) = true) ∧
    (∀ sd ed pn ps,
      selectPath ⟨none, none, none, sd, ed, none, pn, ps⟩ = RetrievalPath.unfiltered) ∧
    (∀ st : Str, st ≠ [] →
      selectPath ⟨none, some st, none, none, none, none, none, none⟩ =
        RetrievalPath.filtered) := by
  refine ⟨fun f => ?_, fun sd ed pn ps => rfl, fun st h => ?_⟩
  · rw [show (jsTruthyStr f.ReminderType || jsTruthyStr f.Status ||
        jsTruthyStr f.Priority || jsTruthyStr f.ClientId) = hasFilters f from rfl]
    cases h : hasFilters f <;> simp [selectPath, h]
  · cases st with
    | nil => exact absurd rfl h
    | cons a t => rfl

/-- Witness for C4: Status alone, as the nonempty string "Active", routes
to the filtered path, and a filter carrying only dates and paging routes to
the unfiltered path. -/
theorem C4_filter_path_selection_witness :
    selectPath ⟨none, some "Active".data, none, none, none, none, none, none⟩ =
        RetrievalPath.filtered ∧
    selectPath ⟨none, none, none, some "2025-01-01".data, some "2025-12-31".data,
        none, some 2, some 10⟩ = RetrievalPath.unfiltered :=
  ⟨C4_filter_path_selection.2.2 "Active".data (by decide),
   C4_filter_path_selection.2.1 (some "2025-01-01".data) (some "2025-12-31".data)
     (some 2) (some 10)⟩

/-- C5: every getAllReminders result has pageSize defaulted to 20 and
currentPage defaulted to 1 when not supplied, and satisfies totalPages =
ceil(totalRecords / pageSize); totalRecords = 0 gives totalPages = 0, and
totalRecords = 45 with pageSize 20 gives totalPages = 3. -/
theorem C5_pagination_ceiling :
    (∀ db agentId today f spRows,
      (getAllReminders db agentId today f spRows).pageSize = jsOrNat f.PageSize 20 ∧
      (getAllReminders db agentId today f spRows).currentPage = jsOrNat f.PageNumber 1 ∧
      (getAllReminders db agentId today f spRows).totalPages =
        ⌈((getAllReminders db agentId today f spRows).totalRecords : ℚ) /
          ((getAllReminders db agentId today f spRows).pageSize : ℚ)⌉₊ ∧
      ((getAllReminders db agentId today f spRows).totalRecords = 0 →
        (getAllReminders db agentId today f spRows).totalPages = 0)) ∧
    (∀ db agentId today f spRows,
      f.PageSize = none → f.PageNumber = none →
      (getAllReminders db agentId today f spRows).pageSize = 20 ∧
      (getAllReminders db agentId today f spRows).currentPage = 1) ∧
    (getAllReminders ⟨[], [], [], []⟩ 1 ⟨2025, 10, 11⟩
      ⟨none, some "Active".data, none, none, none, none, none, none⟩
      [⟨45⟩]).totalRecords = 45 ∧
    (getAllReminders ⟨[], [], [], []⟩ 1 ⟨2025, 10, 11⟩
      ⟨none, some "Active".data, none, none, none, none, none, none⟩
      [⟨45⟩]).totalPages = 3 ∧
    (getAllReminders ⟨[], [], [], []⟩ 1 ⟨2025, 10, 11⟩
      ⟨none, none, none, none, none, none, none, none⟩ []).totalRecords = 0 ∧
    (getAllReminders ⟨[], [], [], []⟩ 1 ⟨2025, 10, 11⟩
      ⟨none, none, none, none, none, none, none, none⟩ []).totalPages = 0 := by
  refine ⟨fun db agentId today f spRows => ⟨rfl, rfl, ?_, fun h0 => ?_⟩,
    fun db agentId today f spRows hps hpn => ?_, by decide, by decide, by decide, by decide⟩
  · exact ceil_div_nat _ _ (jsOrNat_pos f.PageSize 20 (by omega))
  · have hb : 0 < jsOrNat f.PageSize 20 := jsOrNat_pos f.PageSize 20 (by omega)
    show ((getAllReminders db agentId today f spRows).totalRecords +
        jsOrNat f.PageSize 20 - 1) / jsOrNat f.PageSize 20 = 0
    rw [h0]
    exact Nat.div_eq_of_lt (by omega)
  · exact ⟨by show jsOrNat f.PageSize 20 = 20; rw [hps]; rfl,
      by show jsOrNat f.PageNumber 1 = 1; rw [hpn]; rfl⟩

/-- Witness for C5 at a concrete unfiltered call with defaulted paging. -/
theorem C5_pagination_ceiling_witness :
    (getAllReminders ⟨[], [], [], []⟩ 1 ⟨2025, 10, 11⟩
      ⟨none, none, none, none, none, none, none, none⟩ []).pageSize = 20 ∧
    (getAllReminders ⟨[], [], [], []⟩ 1 ⟨2025, 10, 11⟩
      ⟨none, none, none, none, none, none, none, none⟩ []).currentPage = 1 :=
  C5_pagination_ceiling.2.1 ⟨[], [], [], []⟩ 1 ⟨2025, 10, 11⟩
    ⟨none, none, none, none, none, none, none, none⟩ [] rfl rfl

/-- C6: on the unfiltered retrieval path, totalRecords is the sum of the
four independently computed counts (native reminders, policies expiring
within 30 days, leap-adjusted birthdays within 7 days, active
appointments), independent of the rows the retrieval call returned, and
totalPages is computed from this aggregate. -/
theorem C6_unfiltered_total_sum :
    ∀ db agentId today f spRows,
      hasFilters f = false →
      (getAllReminders db agentId today f spRows).totalRecords =
        nativeReminderCount db agentId + policyExpiryCount db agentId today +
          birthdayCount db agentId today + activeAppointmentCount db agentId ∧
      (getAllReminders db agentId today f spRows).totalPages =
        (nativeReminderCount db agentId + policyExpiryCount db agentId today +
            birthdayCount db agentId today + activeAppointmentCount db agentId +
            jsOrNat f.PageSize 20 - 1) / jsOrNat f.PageSize 20 := by
  intro db agentId today f spRows h
  have ht : (getAllReminders db agentId today f spRows).totalRecords =
      nativeReminderCount db agentId + policyExpiryCount db agentId today +
        birthdayCount db agentId today + activeAppointmentCount db agentId := by
    show (if hasFilters f && spRows.length > 0 then (spRows.headI).totalRecords
      else if !hasFilters f then unfilteredTotalRecords db agentId today
      else spRows.length) = _
    rw [h]
    simp [unfilteredTotalRecords, allRemindersCountRows]
    omega
  refine ⟨ht, ?_⟩
  show ((getAllReminders db agentId today f spRows).totalRecords +
      jsOrNat f.PageSize 20 - 1) / jsOrNat f.PageSize 20 = _
  rw [ht]

/- A concrete database for the C6 witness: agent 7 owns one native
reminder, one active policy of client 1 expiring nine days out, one active
client whose birthday is four days out, and one active plus one inactive
appointment. -/
def dbC6 : CrmDb :=
  ⟨[⟨7⟩],
   [⟨1, true, ⟨2025, 10, 20⟩⟩],
   [⟨1, 7, true, some ⟨1990, 10, 15⟩⟩],
   [⟨7, true⟩, ⟨7, false⟩]⟩

/-- Witness for C6: the unfiltered call on the concrete database sums the
four counts 1 + 1 + 1 + 1. -/
theorem C6_unfiltered_total_sum_witness :
    (getAllReminders dbC6 7 ⟨2025, 10, 11⟩
        ⟨none, none, none, none, none, none, none, none⟩ []).totalRecords =
      nativeReminderCount dbC6 7 + policyExpiryCount dbC6 7 ⟨2025, 10, 11⟩ +
        birthdayCount dbC6 7 ⟨2025, 10, 11⟩ + activeAppointmentCount dbC6 7 ∧
    nativeReminderCount dbC6 7 = 1 ∧ policyExpiryCount dbC6 7 ⟨2025, 10, 11⟩ = 1 ∧
    birthdayCount dbC6 7 ⟨2025, 10, 11⟩ = 1 ∧ activeAppointmentCount dbC6 7 = 1 :=
  ⟨(C6_unfiltered_total_sum dbC6 7 ⟨2025, 10, 11⟩
      ⟨none, none, none, none, none, none, none, none⟩ [] rfl).1,
   by decide, by decide, by decide, by decide⟩

/-- C7: in the birthday source of the unfiltered reminder total, a client
born February 29 is counted, in a non-leap current year, with February 28
of the current year as the birthday date; every other date of birth keeps
its own month and day in the current year. -/
theorem C7_birthday_leap_day :
    (∀ today dob : SqlDate,
      (dob.month = 2 → dob.day = 29 → isLeapYear today.year = false →
        birthdayDate today dob = ⟨today.year, 2, 28⟩) ∧
      (¬(dob.month = 2 ∧ dob.day = 29 ∧ isLeapYear today.year = false) →
        birthdayDate today dob = ⟨today.year, dob.month, dob.day⟩)) ∧
    birthdayCount ⟨[], [], [⟨1, 9, true, some ⟨2000, 2, 29⟩⟩], []⟩ 9 ⟨2025, 2, 27⟩ = 1 := by
  refine ⟨fun today dob => ⟨fun h1 h2 h3 => ?_, fun hn => ?_⟩, by decide⟩
  · simp [birthdayDate, h1, h2, h3]
  · have hc : (dob.month == 2 && dob.day == 29 && !(isLeapYear today.year)) = false := by
      rcases hb : (dob.month == 2 && dob.day == 29 && !(isLeapYear today.year)) with _ | _
      · rfl
      · exfalso
        simp only [Bool.and_eq_true, beq_iff_eq, Bool.not_eq_true'] at hb
        exact hn ⟨hb.1.1, hb.1.2, hb.2⟩
    simp [birthdayDate, hc]

/-- Witness for C7: a Feb 29 date of birth in the non-leap year 2025 maps
to Feb 28, and an ordinary date of birth keeps its month and day. -/
theorem C7_birthday_leap_day_witness :
    birthdayDate ⟨2025, 2, 27⟩ ⟨2000, 2, 29⟩ = ⟨2025, 2, 28⟩ ∧
    birthdayDate ⟨2025, 2, 27⟩ ⟨1990, 10, 15⟩ = ⟨2025, 10, 15⟩ :=
  ⟨(C7_birthday_leap_day.1 ⟨2025, 2, 27⟩ ⟨2000, 2, 29⟩).1 rfl rfl (by decide),
   (C7_birthday_leap_day.1 ⟨2025, 2, 27⟩ ⟨1990, 10, 15⟩).2 (by decide)⟩

/- JavaScript a || b on optional strings: returns a when truthy, otherwise
b (which may itself be undefined or empty). -/
def jsOrStr (a b : Option Str) : Option Str :=
  if jsTruthyStr a then a else b

/- Property-key coercion of JavaScript: an undefined date indexes the
object under the string "undefined". -/
def jsKey : Option Str → Str
  | none => "undefined".data
  | some s => s

/- One raw row of sp_get_week_view_appointments or
sp_get_calendar_appointments, restricted to the fields the grouping code
reads; the remaining columns only feed convertToAppointment, which maps
them one-for-one into the appointment pushed onto the entry, so the source
row itself stands for that converted appointment. -/
structure ViewRow where
  appointment_date : Option Str
  date : Option Str
  day_name : Option Str
  dayName : Option Str
  appointment_id : Option Str
  appointmentId : Option Str
  appointmentid : Option Str
deriving DecidableEq, Repr

/- const date = row.appointment_date || row.date, as an object key. -/
def rowKey (row : ViewRow) : Str :=
  jsKey (jsOrStr row.appointment_date row.date)

/- if (row.appointment_id || row.appointmentId || row.appointmentid). -/
def rowIdTruthy (row : ViewRow) : Bool :=
  jsTruthyStr row.appointment_id || jsTruthyStr row.appointmentId ||
    jsTruthyStr row.appointmentid

/- One entry of the week view: date, day name and its appointments. -/
structure WeekViewData where
  date : Str
  dayName : Option Str
  appointments : List ViewRow
deriving DecidableEq, Repr

/- One entry of the calendar view: date, running count and appointments. -/
structure CalendarViewData where
  date : Str
  appointmentCount : Nat
  appointments : List ViewRow
deriving DecidableEq, Repr

/- The body of the forEach of getWeekViewAppointments: create the entry for
an unseen date, then push the appointment when the row carries an
appointment id.  JavaScript objects enumerate string keys in insertion
order, so the accumulator is an insertion-ordered list of entries. -/
def weekStep (acc : List WeekViewData) (row : ViewRow) : List WeekViewData :=
  let date := rowKey row
  let acc1 :=
    if acc.any (fun e => e.date == date) then acc
    else acc ++ [⟨date, jsOrStr row.day_name row.dayName, []⟩]
  if rowIdTruthy row then
    acc1.map (fun e =>
      if e.date == date then ⟨e.date, e.dayName, e.appointments ++ [row]⟩ else e)
  else acc1

/- AppointmentsService.getWeekViewAppointments: group the rows by date and
return Object.values of the grouping. -/
def getWeekViewAppointments (rows : List ViewRow) : List WeekViewData :=
  rows.foldl weekStep []

/- The body of the forEach of getCalendarViewAppointments: create the entry
with appointmentCount 0 for an unseen date, then push the appointment and
increment the count when the row carries an appointment id. -/
def calendarStep (acc : List CalendarViewData) (row : ViewRow) : List CalendarViewData :=
  let date := rowKey row
  let acc1 :=
    if acc.any (fun e => e.date == date) then acc
    else acc ++ [⟨date, 0, []⟩]
  if rowIdTruthy row then
    acc1.map (fun e =>
      if e.date == date then ⟨e.date, e.appointmentCount + 1, e.appointments ++ [row]⟩ else e)
  else acc1

/- AppointmentsService.getCalendarViewAppointments. -/
def getCalendarViewAppointments (rows : List ViewRow) : List CalendarViewData :=
  rows.foldl calendarStep []

lemma calendarStep_count_inv (acc : List CalendarViewData) (row : ViewRow)
    (hacc : ∀ e ∈ acc, e.appointmentCount = e.appointments.length) :
    ∀ e ∈ calendarStep acc row, e.appointmentCount = e.appointments.length := by
  intro e he
  unfold calendarStep at he
  have hacc1 : ∀ x ∈ (if acc.any (fun e => e.date == rowKey row) then acc
      else acc ++ [⟨rowKey row, 0, []⟩]), x.appointmentCount = x.appointments.length := by
    intro x hx
    by_cases hany : acc.any (fun e => e.date == rowKey row)
    · rw [if_pos hany] at hx; exact hacc x hx
    · rw [if_neg hany] at hx
      rcases List.mem_append.mp hx with h | h
      · exact hacc x h
      · have : x = ⟨rowKey row, 0, []⟩ := by simpa using h
        rw [this]
        rfl
  by_cases ht : rowIdTruthy row
  · rw [if_pos ht] at he
    obtain ⟨e1, he1, hfe⟩ := List.mem_map.mp he
    by_cases hde : (e1.date == rowKey row) = true
    · rw [if_pos hde] at hfe
      subst hfe
      simp [hacc1 e1 he1]
    · rw [if_neg hde] at hfe
      subst hfe
      exact hacc1 e1 he1
  · rw [if_neg ht] at he
    exact hacc1 e he

/-- C10: in every entry of the calendar view, appointmentCount equals the
length of the appointments array, for every input row set: counter and list
are incremented together exactly on id-bearing rows. -/
theorem C10_calendar_count_matches_list :
    ∀ rows : List ViewRow, ∀ e ∈ getCalendarViewAppointments rows,
      e.appointmentCount = e.appointments.length := by
  intro rows
  show ∀ e ∈ rows.foldl calendarStep [], e.appointmentCount = e.appointments.length
  generalize hacc : ([] : List CalendarViewData) = acc
  have h0 : ∀ e ∈ acc, e.appointmentCount = e.appointments.length := by
    rw [← hacc]; intro e he; simp at he
  clear hacc
  induction rows generalizing acc with
  | nil => exact h0
  | cons r rest ih => exact ih (calendarStep acc r) (calendarStep_count_inv acc r h0)

/- Concrete rows for the C10 witness: two appointment-bearing rows on the
same date. -/
def rowA : ViewRow :=
  ⟨some "2025-01-06".data, none, some "Monday".data, none, some "a1".data, none, none⟩

def rowB : ViewRow :=
  ⟨some "2025-01-06".data, none, some "Monday".data, none, some "a2".data, none, none⟩

/-- Witness for C10: the single entry produced by two id-bearing rows on
one date carries appointmentCount 2 and a two-element list. -/
theorem C10_calendar_count_matches_list_witness :
    (⟨"2025-01-06".data, 2, [rowA, rowB]⟩ : CalendarViewData).appointmentCount =
      (⟨"2025-01-06".data, 2, [rowA, rowB]⟩ : CalendarViewData).appointments.length :=
  C10_calendar_count_matches_list [rowA, rowB] ⟨"2025-01-06".data, 2, [rowA, rowB]⟩
    (by decide)

lemma weekStep_any_date (acc : List WeekViewData) (row : ViewRow) (d : Str) :
    (weekStep acc row).any (fun e => e.date == d) =
      (acc.any (fun e => e.date == d) || (rowKey row == d)) := by
  unfold weekStep
  have hmap : ∀ (l : List WeekViewData),
      (l.map (fun e => if e.date == rowKey row then
          ⟨e.date, e.dayName, e.appointments ++ [row]⟩ else e)).any (fun e => e.date == d) =
        l.any (fun e => e.date == d) := by
    intro l
    rw [List.any_map]
    congr 1
    funext e
    by_cases h : e.date = rowKey row <;> simp [h]
  have hacc1 : (if acc.any (fun e => e.date == rowKey row) then acc
      else acc ++ [⟨rowKey row, jsOrStr row.day_name row.dayName, []⟩]).any
        (fun e => e.date == d) =
      (acc.any (fun e => e.date == d) || (rowKey row == d)) := by
    by_cases hany : acc.any (fun e => e.date == rowKey row)
    · rw [if_pos hany]
      by_cases hdd : (rowKey row == d) = true
      · have hsub : acc.any (fun e => e.date == d) = true := by
          obtain ⟨e, he, hed⟩ := List.any_eq_true.mp hany
          refine List.any_eq_true.mpr ⟨e, he, ?_⟩
          rw [show e.date = rowKey row from eq_of_beq hed]
          exact hdd
        rw [hsub, hdd]
        rfl
      · rw [Bool.eq_false_iff.mpr hdd, Bool.or_false]
    · rw [if_neg hany, List.any_append]
      simp
  by_cases ht : rowIdTruthy row
  · simp only [if_pos ht, hmap, hacc1]
  · simp only [if_neg ht, hacc1]

lemma getWeek_any_date (rows : List ViewRow) (acc : List WeekViewData) (d : Str) :
    (rows.foldl weekStep acc).any (fun e => e.date == d) =
      (acc.any (fun e => e.date == d) || rows.any (fun r => rowKey r == d)) := by
  induction rows generalizing acc with
  | nil => simp
  | cons r rest ih =>
      rw [List.foldl_cons, ih, weekStep_any_date]
      simp [Bool.or_assoc]

lemma calendarStep_any_date (acc : List CalendarViewData) (row : ViewRow) (d : Str) :
    (calendarStep acc row).any (fun e => e.date == d) =
      (acc.any (fun e => e.date == d) || (rowKey row == d)) := by
  unfold calendarStep
  have hmap : ∀ (l : List CalendarViewData),
      (l.map (fun e => if e.date == rowKey row then
          ⟨e.date, e.appointmentCount + 1, e.appointments ++ [row]⟩ else e)).any
        (fun e => e.date == d) = l.any (fun e => e.date == d) := by
    intro l
    rw [List.any_map]
    congr 1
    funext e
    by_cases h : e.date = rowKey row <;> simp [h]
  have hacc1 : (if acc.any (fun e => e.date == rowKey row) then acc
      else acc ++ [⟨rowKey row, 0, []⟩]).any (fun e => e.date == d) =
      (acc.any (fun e => e.date == d) || (rowKey row == d)) := by
    by_cases hany : acc.any (fun e => e.date == rowKey row)
    · rw [if_pos hany]
      by_cases hdd : (rowKey row == d) = true
      · have hsub : acc.any (fun e => e.date == d) = true := by
          obtain ⟨e, he, hed⟩ := List.any_eq_true.mp hany
          refine List.any_eq_true.mpr ⟨e, he, ?_⟩
          rw [show e.date = rowKey row from eq_of_beq hed]
          exact hdd
        rw [hsub, hdd]
        rfl
      · rw [Bool.eq_false_iff.mpr hdd, Bool.or_false]
    · rw [if_neg hany, List.any_append]
      simp
  by_cases ht : rowIdTruthy row
  · simp only [if_pos ht, hmap, hacc1]
  · simp only [if_neg ht, hacc1]

lemma getCalendar_any_date (rows : List ViewRow) (acc : List CalendarViewData) (d : Str) :
    (rows.foldl calendarStep acc).any (fun e => e.date == d) =
      (acc.any (fun e => e.date == d) || rows.any (fun r => rowKey r == d)) := by
  induction rows generalizing acc with
  | nil => simp
  | cons r rest ih =>
      rw [List.foldl_cons, ih, calendarStep_any_date]
      simp [Bool.or_assoc]

lemma weekStep_apps_from (acc : List WeekViewData) (row : ViewRow) :
    ∀ e ∈ weekStep acc row, ∀ r ∈ e.appointments,
      (∃ e1 ∈ acc, e1.date = e.date ∧ r ∈ e1.appointments) ∨
        (r = row ∧ rowIdTruthy row = true ∧ rowKey row = e.date) := by
  intro e he r hr
  unfold weekStep at he
  have hacc1 : ∀ x ∈ (if acc.any (fun e => e.date == rowKey row) then acc
      else acc ++ [⟨rowKey row, jsOrStr row.day_name row.dayName, []⟩]),
      x ∈ acc ∨ x = ⟨rowKey row, jsOrStr row.day_name row.dayName, []⟩ := by
    intro x hx
    by_cases hany : acc.any (fun e => e.date == rowKey row)
    · rw [if_pos hany] at hx; exact Or.inl hx
    · rw [if_neg hany] at hx
      rcases List.mem_append.mp hx with h | h
      · exact Or.inl h
      · exact Or.inr (by simpa using h)
  by_cases ht : rowIdTruthy row
  · rw [if_pos ht] at he
    obtain ⟨e1, he1, hfe⟩ := List.mem_map.mp he
    by_cases hde : e1.date = rowKey row
    · rw [if_pos (by rw [hde]; exact beq_self_eq_true _)] at hfe
      subst hfe
      rcases List.mem_append.mp hr with h | h
      · rcases hacc1 e1 he1 with ha | ha
        · exact Or.inl ⟨e1, ha, rfl, h⟩
        · rw [ha] at h; simp at h
      · have hrr : r = row := by simpa using h
        subst hrr
        exact Or.inr ⟨rfl, ht, hde.symm⟩
    · rw [if_neg (by simpa using hde)] at hfe
      rcases hacc1 e1 he1 with ha | ha
      · exact Or.inl ⟨e1, ha, by rw [hfe], by rw [hfe]; exact hr⟩
      · exfalso
        rw [← hfe, ha] at hr
        simp at hr
  · rw [if_neg ht] at he
    rcases hacc1 e he with ha | ha
    · exact Or.inl ⟨e, ha, rfl, hr⟩
    · rw [ha] at hr; simp at hr

lemma getWeek_apps_from (rows : List ViewRow) (acc : List WeekViewData) :
    ∀ e ∈ rows.foldl weekStep acc, ∀ r ∈ e.appointments,
      (∃ e0 ∈ acc, e0.date = e.date ∧ r ∈ e0.appointments) ∨
        (r ∈ rows ∧ rowIdTruthy r = true ∧ rowKey r = e.date) := by
  induction rows generalizing acc with
  | nil => exact fun e he r hr => Or.inl ⟨e, he, rfl, hr⟩
  | cons r0 rest ih =>
      intro e he r hr
      rcases ih (weekStep acc r0) e he r hr with ⟨e0, he0, hdate, hr0⟩ | ⟨hmem, htr, hkey⟩
      · rcases weekStep_apps_from acc r0 e0 he0 r hr0 with ⟨e1, he1, hd1, hr1⟩ | ⟨hrr, ht0, hk0⟩
        · exact Or.inl ⟨e1, he1, hd1.trans hdate, hr1⟩
        · subst hrr
          exact Or.inr ⟨List.mem_cons_self _ _, ht0, hk0.trans hdate⟩
      · exact Or.inr ⟨List.mem_cons_of_mem _ hmem, htr, hkey⟩

lemma getCalendar_nonempty (rows : List ViewRow) (acc : List CalendarViewData)
    (hacc : ∀ e ∈ acc, e.appointments ≠ [])
    (hrows : ∀ r ∈ rows, rowIdTruthy r = true) :
    ∀ e ∈ rows.foldl calendarStep acc, e.appointments ≠ [] := by
  induction rows generalizing acc with
  | nil => exact hacc
  | cons r0 rest ih =>
      refine ih (calendarStep acc r0) ?_ (fun r hr => hrows r (List.mem_cons_of_mem _ hr))
      intro e he
      unfold calendarStep at he
      rw [if_pos (hrows r0 (List.mem_cons_self _ _))] at he
      obtain ⟨e1, he1, hfe⟩ := List.mem_map.mp he
      by_cases hde : e1.date = rowKey r0
      · rw [if_pos (by rw [hde]; exact beq_self_eq_true _)] at hfe
        subst hfe
        simp
      · rw [if_neg (by simpa using hde)] at hfe
        rw [← hfe]
        by_cases hany : acc.any (fun e => e.date == rowKey r0)
        · rw [if_pos hany] at he1
          exact hacc e1 he1
        · rw [if_neg hany] at he1
          rcases List.mem_append.mp he1 with h | h
          · exact hacc e1 h
          · exfalso
            have hnew : e1 = ⟨rowKey r0, 0, []⟩ := by simpa using h
            rw [hnew] at hde
            exact hde rfl

/- A row that carries a date but no appointment id, as the week view
stored procedure produces for a day without appointments. -/
def emptyDateRow : ViewRow :=
  ⟨some "2025-01-06".data, none, some "Monday".data, none, none, none, none⟩

/- A row that carries both a date and an appointment id. -/
def idRowC9 : ViewRow :=
  ⟨some "2025-01-07".data, none, some "Tuesday".data, none, some "b1".data, none, none⟩

/-- Counterexample for C9: over the same underlying row set, a date whose
only row carries no appointment is NOT omitted by the calendar view: the
grouping emits an entry with appointmentCount 0 and an empty appointments
list, exactly as the week view does. -/
theorem C9_counterexample_calendar_keeps_empty_date :
    getCalendarViewAppointments [emptyDateRow] =
        [⟨"2025-01-06".data, 0, []⟩] ∧
    getWeekViewAppointments [emptyDateRow] =
        [⟨"2025-01-06".data, some "Monday".data, []⟩] := by
  constructor <;> decide

/-- C9 amended: over the same underlying row set both groupings contain an
entry for exactly the dates present in the rows; a week view entry whose
date has no id-bearing row has an empty appointments list; the calendar
view omits a date only when no row mentions it — in particular, when every
row of the calendar row set carries an appointment id (as the calendar
stored procedure returns only appointment rows), every calendar entry has
a nonempty appointments list. -/
theorem C9_week_includes_calendar_omits :
    (∀ rows d, (∃ e ∈ getWeekViewAppointments rows, e.date = d) ↔
      (∃ r ∈ rows, rowKey r = d)) ∧
    (∀ rows, ∀ e ∈ getWeekViewAppointments rows,
      (∀ r ∈ rows, rowKey r = e.date → rowIdTruthy r = false) → e.appointments = []) ∧
    (∀ rows d, (∃ e ∈ getCalendarViewAppointments rows, e.date = d) ↔
      (∃ r ∈ rows, rowKey r = d)) ∧
    (∀ rows, (∀ r ∈ rows, rowIdTruthy r = true) →
      ∀ e ∈ getCalendarViewAppointments rows, e.appointments ≠ []) := by
  refine ⟨fun rows d => ?_, fun rows e he hnone => ?_, fun rows d => ?_, fun rows hall => ?_⟩
  · have h := getWeek_any_date rows [] d
    simp only [List.any_nil, Bool.false_or] at h
    show (∃ e ∈ rows.foldl weekStep [], e.date = d) ↔ _
    constructor
    · rintro ⟨e, he, hed⟩
      have hb : (rows.foldl weekStep []).any (fun x => x.date == d) = true :=
        List.any_eq_true.mpr ⟨e, he, by simp [hed]⟩
      rw [h] at hb
      obtain ⟨r, hr, hrd⟩ := List.any_eq_true.mp hb
      exact ⟨r, hr, eq_of_beq hrd⟩
    · rintro ⟨r, hr, hrd⟩
      have hb : rows.any (fun r => rowKey r == d) = true :=
        List.any_eq_true.mpr ⟨r, hr, by simp [hrd]⟩
      rw [← h] at hb
      obtain ⟨e, he, hed⟩ := List.any_eq_true.mp hb
      exact ⟨e, he, eq_of_beq hed⟩
  · rw [List.eq_nil_iff_forall_not_mem]
    intro r hr
    rcases getWeek_apps_from rows [] e he r hr with ⟨e0, he0, _, _⟩ | ⟨hmem, htr, hkey⟩
    · simp at he0
    · exact absurd htr (by simp [hnone r hmem hkey])
  · have h := getCalendar_any_date rows [] d
    simp only [List.any_nil, Bool.false_or] at h
    show (∃ e ∈ rows.foldl calendarStep [], e.date = d) ↔ _
    constructor
    · rintro ⟨e, he, hed⟩
      have hb : (rows.foldl calendarStep []).any (fun x => x.date == d) = true :=
        List.any_eq_true.mpr ⟨e, he, by simp [hed]⟩
      rw [h] at hb
      obtain ⟨r, hr, hrd⟩ := List.any_eq_true.mp hb
      exact ⟨r, hr, eq_of_beq hrd⟩
    · rintro ⟨r, hr, hrd⟩
      have hb : rows.any (fun r => rowKey r == d) = true :=
        List.any_eq_true.mpr ⟨r, hr, by simp [hrd]⟩
      rw [← h] at hb
      obtain ⟨e, he, hed⟩ := List.any_eq_true.mp hb
      exact ⟨e, he, eq_of_beq hed⟩
  · exact getCalendar_nonempty rows [] (by simp) hall

/-- Witness for the amended C9 at concrete row sets: the week view keeps
the appointment-free date 2025-01-06 with an empty list, and over a
calendar row set whose rows all carry ids, every entry is nonempty. -/
theorem C9_week_includes_calendar_omits_witness :
    (∃ e ∈ getWeekViewAppointments [emptyDateRow], e.date = "2025-01-06".data) ∧
    (∀ e ∈ getWeekViewAppointments [emptyDateRow],
      (∀ r ∈ [emptyDateRow], rowKey r = e.date → rowIdTruthy r = false) →
        e.appointments = []) ∧
    (∀ e ∈ getCalendarViewAppointments [idRowC9], e.appointments ≠ []) :=
  ⟨(C9_week_includes_calendar_omits.1 [emptyDateRow] "2025-01-06".data).mpr
      ⟨emptyDateRow, by decide, by decide⟩,
   fun e he => C9_week_includes_calendar_omits.2.1 [emptyDateRow] e he,
   C9_week_includes_calendar_omits.2.2.2 [idRowC9] (by decide)⟩

def isHexDigitCh (c : Char) : Bool :=
  isDigitCh c || ('a' ≤ c && c ≤ 'f') || ('A' ≤ c && c ≤ 'F')

def hexDigitVal (c : Char) : Nat :=
  if isDigitCh c then c.toNat - 48
  else if 'a' ≤ c && c ≤ 'f' then c.toNat - 87
  else c.toNat - 55

def hexDigitsToNat (cs : Str) : Nat :=
  cs.foldl (fun acc c => acc * 16 + hexDigitVal c) 0

/- JavaScript parseInt(string) with the radix argument omitted: strip
leading whitespace, take an optional sign, then either a 0x/0X hexadecimal
literal or the longest prefix of decimal digits; none models NaN (no
digits). -/
def jsParseInt (cs : Str) : Option Int :=
  let s1 := cs.dropWhile isWhitespaceCh
  let sign : Int := match s1 with | '-' :: _ => -1 | _ => 1
  let s2 := match s1 with | '-' :: r => r | '+' :: r => r | _ => s1
  let hexPrefixed : Bool := match s2 with
    | '0' :: x :: _ => x == 'x' || x == 'X'
    | _ => false
  if hexPrefixed then
    let ds := (s2.drop 2).takeWhile isHexDigitCh
    if ds.isEmpty then none else some (sign * (hexDigitsToNat ds : Int))
  else
    let ds := s2.takeWhile isDigitCh
    if ds.isEmpty then none else some (sign * (digitsToNat ds : Int))

/- Outcome of the daysAhead validation in
RemindersController.getPolicyExpiryReminders: a rejected request returns
the 400 validation response before any service call; an accepted one
proceeds to query with the validated horizon. -/
inductive DaysAheadOutcome
  | rejected (message : Str)
  | accepted (daysAhead : Int)
deriving DecidableEq, Repr

/- The daysAhead handling of getPolicyExpiryReminders: the horizon is
parseInt(req.query.daysAhead) when the parameter is truthy, 30 when it is
absent (or falsy); NaN or a value outside [1, 365] is rejected before
querying. -/
def validateDaysAhead (daysAheadParam : Option Str) : DaysAheadOutcome :=
  let daysAhead : Option Int :=
    if jsTruthyStr daysAheadParam then jsParseInt (daysAheadParam.getD [])
    else some 30
  match daysAhead with
  | none => .rejected "daysAhead must be a valid number between 1 and 365".data
  | some d =>
      if d < 1 || d > 365 then
        .rejected "daysAhead must be a valid number between 1 and 365".data
      else .accepted d

/-- C8: getPolicyExpiryReminders validates the horizon before any query:
every accepted daysAhead is an integer in [1, 365]; an absent parameter
defaults to 30; and 0, 366 and non-numeric input are all rejected with the
validation error. -/
theorem C8_policy_expiry_horizon_validation :
    (∀ p d, validateDaysAhead p = .accepted d → 1 ≤ d ∧ d ≤ 365) ∧
    validateDaysAhead none = .accepted 30 ∧
    validateDaysAhead (some "0".data) =
      .rejected "daysAhead must be a valid number between 1 and 365".data ∧
    validateDaysAhead (some "366".data) =
      .rejected "daysAhead must be a valid number between 1 and 365".data ∧
    validateDaysAhead (some "abc".data) =
      .rejected "daysAhead must be a valid number between 1 and 365".data := by
  refine ⟨fun p d h => ?_, rfl, by decide, by decide, by decide⟩
  unfold validateDaysAhead at h
  rcases hp : (if jsTruthyStr p then jsParseInt (p.getD []) else some 30) with _ | v
  · simp only [hp] at h
    exact DaysAheadOutcome.noConfusion h
  · simp only [hp] at h
    by_cases hr : (decide (v < 1) || decide (v > 365)) = true
    · rw [if_pos hr] at h
      exact DaysAheadOutcome.noConfusion h
    · rw [if_neg hr] at h
      simp only [DaysAheadOutcome.accepted.injEq] at h
      subst h
      simp only [Bool.or_eq_true, not_or, decide_eq_true_eq] at hr
      omega

/-- Witness for C8: the in-range string 45 is accepted as the integer 45,
which lies in [1, 365]. -/
theorem C8_policy_expiry_horizon_validation_witness :
    1 ≤ (45 : Int) ∧ (45 : Int) ≤ 365 :=
  C8_policy_expiry_horizon_validation.1 (some "45".data) 45 (by decide)

/- Modelled from the spec: the appointment row as the conflict checker of
section 4.4 sees it — owning agent, date, the half-open time window in
minutes, and the active flag; sp_check_appointment_conflicts,
sp_create_appointment and sp_update_appointment live in the storage layer
and are not under src/, so their conflict behaviour is modelled from the
specification. -/
structure SpAppointment where
  id : Nat
  agentId : Nat
  date : Nat
  startTime : Nat
  endTime : Nat
  isActive : Bool
deriving DecidableEq, Repr

/- Modelled from the spec: half-open interval overlap — [s1, e1) and
[s2, e2) intersect iff s1 < e2 and s2 < e1, so touching endpoints do not
overlap. -/
def intervalsOverlap (s1 e1 s2 e2 : Nat) : Bool :=
  s1 < e2 && s2 < e1

/- Modelled from the spec: an existing appointment conflicts with the
candidate window iff it has the same agent and date, is active, is not the
excluded appointment, and its half-open interval intersects the
candidate. -/
def conflictsWith (b : SpAppointment) (agentId date s e : Nat)
    (excludeId : Option Nat) : Bool :=
  b.agentId == agentId && b.date == date && b.isActive &&
    (match excludeId with | some x => !(b.id == x) | none => true) &&
    intervalsOverlap s e b.startTime b.endTime

/- The response shape of AppointmentsService.checkAppointmentConflicts. -/
structure ConflictCheckResponse where
  hasConflicts : Bool
  conflictingAppointments : List SpAppointment
deriving DecidableEq, Repr

/- Modelled from the spec: checkAppointmentConflicts(agentId, date,
startTime, endTime, excludeAppointmentId) over the stored appointments. -/
def checkAppointmentConflicts (db : List SpAppointment) (agentId date s e : Nat)
    (excludeId : Option Nat) : ConflictCheckResponse :=
  let cs := db.filter (fun b => conflictsWith b agentId date s e excludeId)
  ⟨!cs.isEmpty, cs⟩

/- Modelled from the spec: sp_create_appointment runs the conflict check
first and inserts only when hasConflicts is false; the Bool reports the
Success flag of the AppointmentResponse. -/
def createAppointment (db : List SpAppointment) (a : SpAppointment) :
    List SpAppointment × Bool :=
  let check := checkAppointmentConflicts db a.agentId a.date a.startTime a.endTime none
  if check.hasConflicts then (db, false) else (db ++ [a], true)

/- Modelled from the spec: sp_update_appointment with new date/time fields
runs the conflict check excluding the edited appointment and writes only
when hasConflicts is false. -/
def updateAppointment (db : List SpAppointment) (agentId id date s e : Nat) :
    List SpAppointment × Bool :=
  let check := checkAppointmentConflicts db agentId date s e (some id)
  if check.hasConflicts then (db, false)
  else
    (db.map (fun b =>
      if b.id == id && b.agentId == agentId then
        ⟨b.id, b.agentId, date, s, e, b.isActive⟩
      else b), true)

/- Two active appointments of the same agent clash when they share the
date and their half-open windows intersect. -/
def apptsClash (a b : SpAppointment) : Prop :=
  a.agentId = b.agentId ∧ a.date = b.date ∧ a.isActive = true ∧ b.isActive = true ∧
    a.startTime < b.endTime ∧ b.startTime < a.endTime

/- The scheduling invariant of section 3: no two active appointments of
one agent overlap on a date. -/
def NoOverlap (db : List SpAppointment) : Prop :=
  db.Pairwise (fun a b => ¬ apptsClash a b)

def UniqueIds (db : List SpAppointment) : Prop :=
  db.Pairwise (fun a b => a.id ≠ b.id)

/- The states reachable from the empty store through guarded creates (with
a fresh id, as the storage layer generates fresh UUIDs) and guarded
date/time updates. -/
inductive Reachable : List SpAppointment → Prop
  | init : Reachable []
  | create (db : List SpAppointment) (a : SpAppointment) :
      Reachable db → (∀ b ∈ db, b.id ≠ a.id) → Reachable (createAppointment db a).1
  | update (db : List SpAppointment) (agentId id date s e : Nat) :
      Reachable db → Reachable (updateAppointment db agentId id date s e).1

lemma conflictsWith_true (b : SpAppointment) (agentId date s e : Nat) (ex : Option Nat)
    (hag : b.agentId = agentId) (hdt : b.date = date) (hact : b.isActive = true)
    (hex : ∀ x, ex = some x → b.id ≠ x) (h1 : s < b.endTime) (h2 : b.startTime < e) :
    conflictsWith b agentId date s e ex = true := by
  unfold conflictsWith intervalsOverlap
  cases ex with
  | none => simp [hag, hdt, hact, h1, h2]
  | some x => simp [hag, hdt, hact, h1, h2, hex x rfl]

lemma hasConflicts_eq_false_iff (db : List SpAppointment) (agentId date s e : Nat)
    (ex : Option Nat) :
    (checkAppointmentConflicts db agentId date s e ex).hasConflicts = false ↔
      ∀ b ∈ db, conflictsWith b agentId date s e ex = false := by
  show (!(db.filter (fun b => conflictsWith b agentId date s e ex)).isEmpty) = false ↔ _
  rw [Bool.not_eq_false', List.isEmpty_iff, List.filter_eq_nil_iff]
  constructor
  · intro h b hb
    exact Bool.eq_false_iff.mpr (h b hb)
  · intro h b hb
    exact Bool.eq_false_iff.mp (h b hb)

lemma reachable_invariant (db : List SpAppointment) (h : Reachable db) :
    NoOverlap db ∧ UniqueIds db := by
  induction h with
  | init => exact ⟨List.Pairwise.nil, List.Pairwise.nil⟩
  | create db a hr hfresh ih =>
      obtain ⟨hno, huid⟩ := ih
      show NoOverlap (createAppointment db a).1 ∧ UniqueIds (createAppointment db a).1
      unfold createAppointment
      by_cases hc :
          (checkAppointmentConflicts db a.agentId a.date a.startTime a.endTime none).hasConflicts
      · rw [if_pos hc]
        exact ⟨hno, huid⟩
      · rw [if_neg hc]
        have hall := (hasConflicts_eq_false_iff db a.agentId a.date a.startTime
          a.endTime none).mp (Bool.eq_false_iff.mpr hc)
        constructor
        · rw [NoOverlap, List.pairwise_append]
          refine ⟨hno, List.pairwise_singleton _ _, fun b hb x hx => ?_⟩
          have hxa : x = a := by simpa using hx
          subst hxa
          rintro ⟨hag, hdt, hba, haa, h1, h2⟩
          have := conflictsWith_true b x.agentId x.date x.startTime x.endTime none hag hdt
            hba (fun y hy => Option.noConfusion hy) h2 h1
          rw [hall b hb] at this
          exact Bool.false_ne_true this
        · rw [UniqueIds, List.pairwise_append]
          exact ⟨huid, List.pairwise_singleton _ _, fun b hb x hx => by
            have hxa : x = a := by simpa using hx
            subst hxa
            exact hfresh b hb⟩
  | update db agentId id date s e hr ih =>
      obtain ⟨hno, huid⟩ := ih
      show NoOverlap (updateAppointment db agentId id date s e).1 ∧
        UniqueIds (updateAppointment db agentId id date s e).1
      unfold updateAppointment
      by_cases hc : (checkAppointmentConflicts db agentId date s e (some id)).hasConflicts
      · rw [if_pos hc]
        exact ⟨hno, huid⟩
      · rw [if_neg hc]
        have hall := (hasConflicts_eq_false_iff db agentId date s e (some id)).mp
          (Bool.eq_false_iff.mpr hc)
        have hpair : db.Pairwise (fun x y => ¬ apptsClash x y ∧ x.id ≠ y.id) :=
          hno.and huid
        constructor
        · rw [NoOverlap, List.pairwise_map]
          refine hpair.imp_of_mem ?_
          intro x y hx hy ⟨hcl, hid⟩
          by_cases hcx : (x.id == id && x.agentId == agentId) = true
          · rw [if_pos hcx]
            by_cases hcy : (y.id == id && y.agentId == agentId) = true
            · exfalso
              simp only [Bool.and_eq_true, beq_iff_eq] at hcx hcy
              exact hid (hcx.1.trans hcy.1.symm)
            · rw [if_neg hcy]
              rintro ⟨hag, hdt, hxa, hya, h1, h2⟩
              simp only [Bool.and_eq_true, beq_iff_eq] at hcx
              have hyid : y.id ≠ id := fun hyi => hid (hcx.1.trans hyi.symm)
              have := conflictsWith_true y agentId date s e (some id)
                (by rw [← hag, hcx.2]) (by rw [← hdt]) hya
                (fun z hz => by injection hz with hz; rw [← hz]; exact hyid)
                h1 h2
              rw [hall y hy] at this
              exact Bool.false_ne_true this
          · rw [if_neg hcx]
            by_cases hcy : (y.id == id && y.agentId == agentId) = true
            · rw [if_pos hcy]
              rintro ⟨hag, hdt, hxa, hya, h1, h2⟩
              simp only [Bool.and_eq_true, beq_iff_eq] at hcy
              have hxid : x.id ≠ id := fun hxi => hid (hxi.trans hcy.1.symm)
              have := conflictsWith_true x agentId date s e (some id)
                (by rw [hag, hcy.2]) (by rw [hdt]) hxa
                (fun z hz => by injection hz with hz; rw [← hz]; exact hxid)
                h2 h1
              rw [hall x hx] at this
              exact Bool.false_ne_true this
            · rw [if_neg hcy]
              exact hcl
        · rw [UniqueIds, List.pairwise_map]
          refine huid.imp_of_mem ?_
          intro x y hx hy hid
          by_cases hcx : (x.id == id && x.agentId == agentId) = true <;>
            by_cases hcy : (y.id == id && y.agentId == agentId) = true <;>
              simp [hcx, hcy, hid]

/-- C1: on every create, and every update that supplies date/time fields,
the conflict check runs before the write and the write happens only when
hasConflicts is false (a conflicting request leaves the store unchanged and
reports failure); consequently every state reachable through create/update
satisfies the invariant that no two active appointments of one agent
overlap on a date. -/
theorem C1_conflict_check_guards_writes :
    (∀ db a,
      (checkAppointmentConflicts db a.agentId a.date a.startTime
        a.endTime none).hasConflicts = true →
      createAppointment db a = (db, false)) ∧
    (∀ db a,
      (checkAppointmentConflicts db a.agentId a.date a.startTime
        a.endTime none).hasConflicts = false →
      createAppointment db a = (db ++ [a], true)) ∧
    (∀ db agentId id date s e,
      (checkAppointmentConflicts db agentId date s e (some id)).hasConflicts = true →
      updateAppointment db agentId id date s e = (db, false)) ∧
    (∀ db, Reachable db → NoOverlap db) := by
  refine ⟨fun db a h => ?_, fun db a h => ?_, fun db agentId id date s e h => ?_,
    fun db h => (reachable_invariant db h).1⟩
  · unfold createAppointment
    rw [if_pos h]
  · unfold createAppointment
    rw [if_neg (by rw [h]; exact Bool.false_ne_true)]
  · unfold updateAppointment
    rw [if_pos h]

/- The stored appointment B of the spec examples: agent 1, one date,
window 09:30-10:30 in minutes. -/
def apptB : SpAppointment := ⟨2, 1, 10, 570, 630, true⟩

/- The stored appointment with window 10:00-11:00. -/
def apptTen : SpAppointment := ⟨3, 1, 10, 600, 660, true⟩

/-- Witness for C1: creating the 10:00-11:00 appointment after the
09:30-10:30 one is rejected with the store unchanged, creating a
09:30-10:30 appointment into an empty store succeeds, and the state
reached by that create satisfies the no-overlap invariant. -/
theorem C1_conflict_check_guards_writes_witness :
    createAppointment [apptB] ⟨3, 1, 10, 600, 690, true⟩ = ([apptB], false) ∧
    createAppointment [] apptB = ([apptB], true) ∧
    NoOverlap (createAppointment [] apptB).1 :=
  ⟨C1_conflict_check_guards_writes.1 [apptB] ⟨3, 1, 10, 600, 690, true⟩ (by decide),
   C1_conflict_check_guards_writes.2.1 [] apptB (by decide),
   C1_conflict_check_guards_writes.2.2.2 (createAppointment [] apptB).1
     (Reachable.create [] apptB Reachable.init (by simp))⟩

lemma conflictsWith_eq_true_elim (b : SpAppointment) (agentId date s e : Nat)
    (ex : Option Nat) (h : conflictsWith b agentId date s e ex = true) :
    b.agentId = agentId ∧ b.date = date ∧ b.isActive = true ∧
      (∀ x, ex = some x → b.id ≠ x) ∧ s < b.endTime ∧ b.startTime < e := by
  unfold conflictsWith intervalsOverlap at h
  cases ex with
  | none =>
      simp only [Bool.and_eq_true, beq_iff_eq, decide_eq_true_eq] at h
      exact ⟨h.1.1.1.1, h.1.1.1.2, h.1.1.2, fun x hx => Option.noConfusion hx,
        h.2.1, h.2.2⟩
  | some x0 =>
      simp only [Bool.and_eq_true, beq_iff_eq, Bool.not_eq_true',
        beq_eq_false_iff_ne, ne_eq, decide_eq_true_eq] at h
      exact ⟨h.1.1.1.1, h.1.1.1.2, h.1.1.2, fun x hx => by
        injection hx with hx
        rw [← hx]
        exact h.1.2, h.2.1, h.2.2⟩

/-- C2: checkAppointmentConflicts reports a conflict iff some stored
appointment has the same agent and date, is active, is not the excluded
id, and its half-open window intersects the candidate window; intervals
that merely touch at an endpoint do not conflict, and an appointment
checked against its own window with its own id excluded yields
hasConflicts = false. -/
theorem C2_conflict_predicate :
    (∀ db agentId date s e ex,
      (checkAppointmentConflicts db agentId date s e ex).hasConflicts = true ↔
        ∃ b ∈ db, b.agentId = agentId ∧ b.date = date ∧ b.isActive = true ∧
          (∀ x, ex = some x → b.id ≠ x) ∧ s < b.endTime ∧ b.startTime < e) ∧
    (checkAppointmentConflicts [apptTen] 1 10 540 600 none).hasConflicts = false ∧
    (checkAppointmentConflicts [apptB] 1 10 540 600 none).hasConflicts = true ∧
    (checkAppointmentConflicts [apptB] 1 10 570 630 (some 2)).hasConflicts = false := by
  refine ⟨fun db agentId date s e ex => ?_, by decide, by decide, by decide⟩
  show (!(db.filter (fun b => conflictsWith b agentId date s e ex)).isEmpty) = true ↔ _
  constructor
  · intro h
    have hne : db.filter (fun b => conflictsWith b agentId date s e ex) ≠ [] := by
      intro hnil
      rw [hnil] at h
      exact Bool.false_ne_true h
    obtain ⟨b, hb⟩ := List.exists_mem_of_ne_nil _ hne
    obtain ⟨hbdb, hbc⟩ := List.mem_filter.mp hb
    exact ⟨b, hbdb, conflictsWith_eq_true_elim b agentId date s e ex hbc⟩
  · rintro ⟨b, hb, hag, hdt, hact, hex, h1, h2⟩
    have hbf : b ∈ db.filter (fun b => conflictsWith b agentId date s e ex) :=
      List.mem_filter.mpr
        ⟨hb, conflictsWith_true b agentId date s e ex hag hdt hact hex h1 h2⟩
    cases hfil : db.filter (fun b => conflictsWith b agentId date s e ex) with
    | nil => exact absurd hfil (List.ne_nil_of_mem hbf)
    | cons c t => rfl

/-- Witness for C2 at a concrete store: the general characterization
instantiated on the singleton store containing the 09:30-10:30 appointment
and the overlapping candidate window 09:00-10:00. -/
theorem C2_conflict_predicate_witness :
    (checkAppointmentConflicts [apptB] 1 10 540 600 none).hasConflicts = true :=
  (C2_conflict_predicate.1 [apptB] 1 10 540 600 none).mpr
    ⟨apptB, by decide, rfl, rfl, rfl, fun x hx => Option.noConfusion hx,
      by decide, by decide⟩
